import Mathlib

/-!
Verification of the nockchain mining-pool coordinator
(crates/nockchain-pool-coordinator) against its specification.

This file gives a shallow embedding of the share-validation, payout,
coordinator, store and Stratum-protocol code, and proves or refutes the
frozen claims about it.  Machine integers are modelled as natural numbers
with explicit reduction modulo 2^64 (respectively 2^128) at the points
where Rust release-mode arithmetic wraps.  Rust f64 arithmetic is modelled
by an exact dyadic-float type with 53-bit round-to-nearest-even rounding
(normal range; all values arising in this code are far inside it).
External collaborators that are not part of the repository (the SHA-256
implementation from the sha2 crate, the noun serialization from nockvm,
and the rand RNG draws) enter as explicit function parameters.
-/

set_option maxRecDepth 10000
set_option linter.unusedVariables false

/-- 2^64, the modulus of Rust u64 arithmetic. -/
def MOD64 : ℕ := 2 ^ 64

/-- 2^128, the modulus of Rust u128 arithmetic. -/
def MOD128 : ℕ := 2 ^ 128

/-- Wrapping u64 subtraction, as in Rust release builds. -/
def wrapSub64 (a b : ℕ) : ℕ := (((a : ℤ) - (b : ℤ)).emod (2 ^ 64)).toNat

/-! ## A model of IEEE-754 binary64 (Rust f64) arithmetic

A finite double is a dyadic rational m * 2^e.  Rounding normalizes the
significand to 53 bits using round-to-nearest, ties-to-even, which is the
rounding of Rust float casts and arithmetic.  Zero is represented
canonically as mantissa 0, exponent 0. -/

/-- Largest e with b * 2^e ≤ a, for integers 0 < b ≤ a (fueled). -/
def qexpUp : ℕ → ℤ → ℤ → ℤ
  | 0, _, _ => 0
  | n+1, a, b => if a < 2 * b then 0 else qexpUp n a (2 * b) + 1

/-- Minimal k ≥ 1 with a * 2^k ≥ b, for integers 0 < a < b (fueled). -/
def qexpDown : ℕ → ℤ → ℤ → ℤ
  | 0, _, _ => 0
  | n+1, a, b => if b ≤ 2 * a then 1 else qexpDown n (2 * a) b + 1

/-- A binary64 value m * 2^e; rounded results keep |m| in [2^52, 2^53) or m = 0. -/
structure F64 where
  m : ℤ
  e : ℤ
  deriving DecidableEq

/-- Round the positive rational (a / b) * 2^sh to the nearest binary64 value
(53-bit significand, round half to even); requires a, b > 0. -/
def divRound53 (a b : ℤ) (sh : ℤ) : F64 :=
  let e := if b ≤ a then qexpUp 400 a b else - qexpDown 400 a b
  let n := if 0 ≤ 52 - e then a * 2 ^ (52 - e).toNat else a
  let d := if 0 ≤ 52 - e then b else b * 2 ^ (e - 52).toNat
  let q := n / d
  let r := n % d
  let q2 := if 2 * r < d then q else if d < 2 * r then q + 1
            else if q % 2 = 0 then q else q + 1
  if q2 = 2 ^ 53 then ⟨2 ^ 52, e - 51 + sh⟩ else ⟨q2, e - 52 + sh⟩

/-- The binary64 value nearest to (num / den) * 2^sh (signs allowed). -/
def mkF64 (num den : ℤ) (sh : ℤ) : F64 :=
  if num = 0 ∨ den = 0 then ⟨0, 0⟩
  else
    let s : ℤ := if (num < 0) = (den < 0) then 1 else -1
    let r := divRound53 (num.natAbs : ℤ) (den.natAbs : ℤ) sh
    ⟨s * r.m, r.e⟩

/-- Rust `n as f64` for an unsigned integer (round to nearest, ties even). -/
def F64.ofNat (n : ℕ) : F64 := mkF64 (n : ℤ) 1 0

/-- Rust f64 multiplication. -/
def F64.mul (x y : F64) : F64 := mkF64 (x.m * y.m) 1 (x.e + y.e)

/-- Rust f64 division (the divisors in this code base are never zero). -/
def F64.div (x y : F64) : F64 := mkF64 x.m y.m (x.e - y.e)

/-- Rust f64 addition. -/
def F64.add (x y : F64) : F64 :=
  if x.e ≤ y.e then mkF64 (x.m + y.m * 2 ^ (y.e - x.e).toNat) 1 x.e
  else mkF64 (x.m * 2 ^ (x.e - y.e).toNat + y.m) 1 y.e

/-- Comparison of two binary64 values. -/
def F64.le (x y : F64) : Bool :=
  let emin := min x.e y.e
  decide (x.m * 2 ^ (x.e - emin).toNat ≤ y.m * 2 ^ (y.e - emin).toNat)

/-- Rust f64::max on finite values. -/
def F64.max (x y : F64) : F64 := if F64.le x y then y else x

/-- Rust f64::min on finite values. -/
def F64.min (x y : F64) : F64 := if F64.le x y then x else y

/-- Rust `x as u64` on a finite f64: truncate toward zero, saturating. -/
def F64.toU64 (x : F64) : ℕ :=
  if x.m ≤ 0 then 0
  else
    let v : ℤ := if 0 ≤ x.e then x.m * 2 ^ x.e.toNat else x.m / 2 ^ (-x.e).toNat
    Min.min (2 ^ 64 - 1) v.toNat

/-! ## Data model (crates/nockchain-pool-coordinator/src/database/schema.rs,
src/shares/types.rs, src/error.rs)

Timestamps (chrono DateTime) are modelled as integer unix seconds, which is
the only view of them the embedded code uses (zset scores). -/

/-- error.rs: the PoolError taxonomy; error payloads are kept as strings. -/
inductive PoolError where
  | database (msg : String)
  | shareValidationErr (msg : String)
  | stratumProtocol (msg : String)
  | payoutErr (msg : String)
  | configuration (msg : String)
  | minerNotFound (msg : String)
  | duplicateShare
  | invalidProof
  | insufficientDifficulty
  | jobNotFound (jobId : String)
  | serialization (msg : String)
  | webSocket (msg : String)
  | otherErr (msg : String)
  deriving DecidableEq

/-- shares/types.rs: ShareType. -/
inductive ShareType where
  | computationProof (nonce : ℕ) (witness_commitment : List ℕ) (computation_steps : ℕ)
  | validBlock (nonce : ℕ) (proof : List ℕ)
  deriving DecidableEq

/-- shares/types.rs: ShareSubmission. -/
structure ShareSubmission where
  job_id : String
  miner_id : String
  share_type : ShareType
  deriving DecidableEq

/-- shares/types.rs: ShareValidation. -/
structure ShareValidation where
  is_valid : Bool
  difficulty : ℕ
  is_block : Bool
  reward_units : ℕ
  deriving DecidableEq

/-- database/schema.rs: MinerRecord. -/
structure MinerRecord where
  address : String
  worker_name : String
  shares_submitted : ℕ
  shares_valid : ℕ
  last_share_time : ℤ
  total_difficulty : ℕ
  registration_time : ℤ
  is_active : Bool
  deriving DecidableEq

/-- database/schema.rs: MinerRecord::new (timestamps passed in for Utc::now). -/
def MinerRecord.new (address worker_name : String) (now : ℤ) : MinerRecord :=
  ⟨address, worker_name, 0, 0, now, 0, now, true⟩

/-- database/schema.rs: ShareRecord. -/
structure ShareRecord where
  id : String
  miner_address : String
  job_id : String
  nonce : ℕ
  difficulty : ℕ
  timestamp : ℤ
  is_valid : Bool
  is_block : Bool
  reward_units : ℕ
  deriving DecidableEq

/-- database/schema.rs: JobTemplate (nonce ranges as an association list). -/
structure JobTemplate where
  id : String
  block_commitment : List ℕ
  target : List ℕ
  share_target : List ℕ
  timestamp : ℤ
  nonce_ranges : List (String × (ℕ × ℕ))
  height : ℕ
  previous_block : String
  deriving DecidableEq

/-- database/schema.rs: MinerReputation (reputation_score is an f64). -/
structure MinerReputation where
  miner_address : String
  valid_shares : ℕ
  invalid_shares : ℕ
  blocks_found : ℕ
  last_block_time : Option ℤ
  reputation_score : F64
  deriving DecidableEq

/-- database/schema.rs: MinerReputation::new (score 1.0). -/
def MinerReputation.new (miner_address : String) : MinerReputation :=
  ⟨miner_address, 0, 0, 0, none, mkF64 1 1 0⟩

/-- database/schema.rs lines 121-124: expected blocks = valid_shares as f64 * 0.00001. -/
def MinerReputation.calculate_expected_blocks (r : MinerReputation) : F64 :=
  (F64.ofNat r.valid_shares).mul (mkF64 1 100000 0)

/-- database/schema.rs lines 113-119: MinerReputation::update_reputation. -/
def MinerReputation.update_reputation (r : MinerReputation) : MinerReputation :=
  let valid_ratio :=
    (F64.ofNat r.valid_shares).div (F64.ofNat (Max.max ((r.valid_shares + r.invalid_shares) % MOD64) 1))
  let expected_blocks := r.calculate_expected_blocks
  let block_ratio := (F64.ofNat r.blocks_found).div (expected_blocks.max (mkF64 1 1 0))
  { r with reputation_score :=
      (((valid_ratio.mul (mkF64 7 10 0)).add ((block_ratio.min (mkF64 2 1 0)).mul (mkF64 3 10 0))).max
        (mkF64 1 10 0)).min (mkF64 2 1 0) }

/-- database/schema.rs: PendingPayout. -/
structure PendingPayout where
  miner_address : String
  amount : ℕ
  shares_window : ℤ × ℤ
  share_count : ℕ
  deriving DecidableEq

/-! ## Store (src/database/redis_store.rs)

The Redis key space is modelled as an explicit state record: plain keys as
association lists, the active-miner set as a list without duplicates, and
sorted sets as association lists member-to-score.  TTLs (set_ex) are not
part of the state model; expiry shows up only as the possible absence of a
record, which is what the claims are about.  I/O failure is out of the
model, so every operation other than save_share is infallible here. -/

/-- Overwrite-or-append update of an association list (a redis SET). -/
def assocPut {α : Type} (l : List (String × α)) (k : String) (v : α) : List (String × α) :=
  match l with
  | [] => [(k, v)]
  | (k2, v2) :: rest => if k2 = k then (k, v) :: rest else (k2, v2) :: assocPut rest k v

/-- Redis SADD on a set modelled as a duplicate-free list. -/
def saddList (l : List String) (x : String) : List String :=
  if x ∈ l then l else l ++ [x]

/-- Redis ZADD: insert a member with a score, updating the score if present. -/
def zaddList (z : List (String × ℤ)) (member : String) (score : ℤ) : List (String × ℤ) :=
  assocPut z member score

/-- Redis ZRANGEBYSCORE (inclusive on both ends): the members whose score
lies in [lo, hi]. -/
def zrangebyscore (z : List (String × ℤ)) (lo hi : ℤ) : List String :=
  (z.filter (fun p => decide (lo ≤ p.2) && decide (p.2 ≤ hi))).map Prod.fst

/-- The state held in Redis, keyed as in redis_store.rs. -/
structure RedisState where
  miners : List (String × MinerRecord)
  minersActive : List String
  shares : List (String × ShareRecord)
  minerShares : List (String × List (String × ℤ))
  sharesWindow : List (String × ℤ)
  jobs : List (String × JobTemplate)
  jobCurrent : Option String
  reputations : List (String × MinerReputation)
  deriving DecidableEq

/-- The empty key space. -/
def RedisState.empty : RedisState := ⟨[], [], [], [], [], [], none, []⟩

/-- redis_store.rs lines 24-32: RedisStore::get_miner. -/
def get_miner (st : RedisState) (address : String) : Option MinerRecord :=
  st.miners.lookup address

/-- redis_store.rs lines 34-42: RedisStore::save_miner (SET plus SADD miners:active). -/
def save_miner (st : RedisState) (miner : MinerRecord) : RedisState :=
  { st with miners := assocPut st.miners miner.address miner,
            minersActive := saddList st.minersActive miner.address }

/-- redis_store.rs lines 50-71: RedisStore::save_share.  Fails with
DuplicateShare when a share with the same id exists; otherwise stores the
record (with a 24h TTL in the real store) and indexes its id by timestamp
in the per-miner zset and the global shares:window zset. -/
def save_share (st : RedisState) (share : ShareRecord) : Except PoolError RedisState :=
  if (st.shares.lookup share.id).isSome then
    Except.error PoolError.duplicateShare
  else
    let minerZ := (st.minerShares.lookup share.miner_address).getD []
    Except.ok
      { st with
        shares := st.shares ++ [(share.id, share)],
        minerShares :=
          assocPut st.minerShares share.miner_address (zaddList minerZ share.id share.timestamp),
        sharesWindow := zaddList st.sharesWindow share.id share.timestamp }

/-- redis_store.rs lines 83-86: the body of the fetch loop of
get_shares_in_window: push the record when it exists, skip otherwise. -/
def window_fetch_step (st : RedisState) (acc : List ShareRecord) (i : String) : List ShareRecord :=
  match st.shares.lookup i with
  | some r => acc ++ [r]
  | none => acc

/-- redis_store.rs lines 73-89: RedisStore::get_shares_in_window.  Range-scans
shares:window, fetches each share record, and silently skips ids whose
record no longer exists. -/
def get_shares_in_window (st : RedisState) (start stop : ℤ) : Except PoolError (List ShareRecord) :=
  let share_ids := zrangebyscore st.sharesWindow start stop
  Except.ok (share_ids.foldl (window_fetch_step st) [])

/-- redis_store.rs lines 92-103: RedisStore::save_job (1h TTL; sets job:current). -/
def save_job (st : RedisState) (job : JobTemplate) : RedisState :=
  { st with jobs := assocPut st.jobs job.id job, jobCurrent := some job.id }

/-- redis_store.rs lines 114-122: RedisStore::get_job. -/
def get_job (st : RedisState) (job_id : String) : Option JobTemplate :=
  st.jobs.lookup job_id

/-- redis_store.rs lines 105-112: RedisStore::get_current_job. -/
def get_current_job (st : RedisState) : Option JobTemplate :=
  match st.jobCurrent with
  | some i => get_job st i
  | none => none

/-- redis_store.rs lines 125-133: RedisStore::get_reputation. -/
def get_reputation (st : RedisState) (miner_address : String) : Option MinerReputation :=
  st.reputations.lookup miner_address

/-- redis_store.rs lines 135-141: RedisStore::save_reputation. -/
def save_reputation (st : RedisState) (rep : MinerReputation) : RedisState :=
  { st with reputations := assocPut st.reputations rep.miner_address rep }

/-- redis_store.rs lines 160-167: RedisStore::cleanup_old_shares removes
shares:window entries with score in [0, before]. -/
def cleanup_old_shares (st : RedisState) (before : ℤ) : RedisState :=
  { st with sharesWindow :=
      st.sharesWindow.filter (fun p => !(decide (0 ≤ p.2) && decide (p.2 ≤ before))) }

/-! ## Verifier (src/shares/computation_proof.rs)

compute_partial_witness and witness_to_bytes serialize a noun built from
the block commitment and the nonce via the external nockvm/nockapp crates;
SHA-256 comes from the external sha2 crate.  Both enter the model as
function parameters: wbytes c n stands for
witness_to_bytes(compute_partial_witness(c, n)) and sha256 for
Sha256::digest.  The rand draws of verify enter as a function rng from the
spot-check index to the drawn nonce; rand::Rng::gen_range guarantees each
draw lies in the half-open nonce range and panics when that range is
empty. -/

/-- computation_proof.rs lines 7-13: ComputationProof; the Range nonce_lo
to nonce_hi is kept as two u64 endpoints. -/
structure ComputationProof where
  witness_commitment : List ℕ
  nonce_lo : ℕ
  nonce_hi : ℕ
  computation_steps : ℕ
  intermediate_hashes : List (List ℕ)
  deriving DecidableEq

/-- Precondition of rand gen_range on the half-open range lo..hi: the range
must be non-empty or the call panics. -/
def gen_range_defined (lo hi : ℕ) : Prop := lo < hi

/-- computation_proof.rs lines 54-82: ComputationProof::verify.  Draws
spot_check_count nonces through rng, recomputes each partial witness,
SHA-256 hashes it, and accepts when for every draw the first 8 bytes of
the hash match the first 8 bytes of some intermediate hash. -/
def ComputationProof.verify (sha256 : List ℕ → List ℕ) (wbytes : List ℕ → ℕ → List ℕ)
    (rng : ℕ → ℕ) (p : ComputationProof) (block_commitment : List ℕ)
    (spot_check_count : ℕ) : Bool :=
  let nonces := (List.range spot_check_count).map rng
  nonces.all (fun nonce =>
    let hash := sha256 (wbytes block_commitment nonce)
    p.intermediate_hashes.any (fun h => h.take 8 == hash.take 8))

/-! ## Share validator (src/shares/validator.rs) -/

/-- validator.rs line 11. -/
def SPOT_CHECK_COUNT : ℕ := 5

/-- validator.rs line 12. -/
def BLOCK_REWARD_UNITS : ℕ := 1000000

/-- The nonce field of either ShareType variant. -/
def ShareType.nonce : ShareType → ℕ
  | ShareType.computationProof n _ _ => n
  | ShareType.validBlock n _ => n

/-- validator.rs lines 46-60: ShareValidator::is_duplicate.  The source
builds the jobId:minerId:nonce key and then unconditionally returns
Ok(false): the duplicate check is a stub. -/
def is_duplicate (share : ShareSubmission) : Except PoolError Bool :=
  let share_id := share.job_id ++ ":" ++ share.miner_id ++ ":" ++ toString share.share_type.nonce
  Except.ok false

/-- u8::leading_zeros for a byte value. -/
def u8_leading_zeros (b : ℕ) : ℕ :=
  if 128 ≤ b then 0 else if 64 ≤ b then 1 else if 32 ≤ b then 2 else if 16 ≤ b then 3
  else if 8 ≤ b then 4 else if 4 ≤ b then 5 else if 2 ≤ b then 6 else if 1 ≤ b then 7 else 8

/-- validator.rs lines 130-142: ShareValidator::calculate_share_difficulty,
inner loop with early break at the first non-zero byte. -/
def shareDifficultyLoop : List ℕ → ℕ
  | [] => 0
  | b :: rest => if b = 0 then 256 + shareDifficultyLoop rest else u8_leading_zeros b * 32

/-- validator.rs lines 130-142: difficulty of a witness commitment, clamped to at least 1. -/
def calculate_share_difficulty (commitment : List ℕ) : ℕ :=
  Max.max (shareDifficultyLoop commitment) 1

/-- validator.rs lines 144-156: inner loop of calculate_block_difficulty,
adding 256 per leading 0xff byte with early break. -/
def blockDifficultyLoop : List ℕ → ℕ
  | [] => 0
  | b :: rest => if b = 255 then 256 + blockDifficultyLoop rest else 0

/-- validator.rs lines 144-156: ShareValidator::calculate_block_difficulty. -/
def calculate_block_difficulty (target : List ℕ) : ℕ :=
  Max.max (blockDifficultyLoop target) 1 * 1000

/-- validator.rs lines 158-168: ShareValidator::meets_target, a byte-wise
walk over zip(hash, target) returning true when the common prefix is equal. -/
def meets_target : List ℕ → List ℕ → Bool
  | h :: hs, t :: ts =>
      if h < t then true else if t < h then false else meets_target hs ts
  | _, _ => true

/-- validator.rs lines 72-78: the one-element proof the validator builds for
a submitted computation share: intermediate hashes [witness_commitment] and
the range nonce..nonce+1 (u64 arithmetic, so nonce+1 wraps at 2^64). -/
def computation_proof_for (witness_commitment : List ℕ) (computation_steps nonce : ℕ) :
    ComputationProof :=
  ⟨witness_commitment, nonce, (nonce + 1) % MOD64, computation_steps, [witness_commitment]⟩

/-- validator.rs lines 62-94: ShareValidator::validate_computation_proof. -/
def validate_computation_proof (sha256 : List ℕ → List ℕ) (wbytes : List ℕ → ℕ → List ℕ)
    (rng : ℕ → ℕ) (st : RedisState) (job_id : String) (witness_commitment : List ℕ)
    (computation_steps nonce : ℕ) : Except PoolError ShareValidation :=
  match get_job st job_id with
  | none => Except.error (PoolError.jobNotFound job_id)
  | some job =>
    let proof := computation_proof_for witness_commitment computation_steps nonce
    if proof.verify sha256 wbytes rng job.block_commitment SPOT_CHECK_COUNT then
      let difficulty := calculate_share_difficulty witness_commitment
      Except.ok ⟨true, difficulty, false, difficulty * computation_steps % MOD64⟩
    else
      Except.error PoolError.invalidProof

/-- validator.rs lines 96-122: ShareValidator::validate_block. -/
def validate_block (sha256 : List ℕ → List ℕ) (st : RedisState) (job_id : String)
    (proof : List ℕ) (nonce : ℕ) : Except PoolError ShareValidation :=
  match get_job st job_id with
  | none => Except.error (PoolError.jobNotFound job_id)
  | some job =>
    let proof_hash := sha256 proof
    if meets_target proof_hash job.target then
      Except.ok ⟨true, calculate_block_difficulty job.target, true, BLOCK_REWARD_UNITS⟩
    else
      Except.error PoolError.insufficientDifficulty

/-- validator.rs lines 27-44: ShareValidator::validate_share. -/
def validate_share (sha256 : List ℕ → List ℕ) (wbytes : List ℕ → ℕ → List ℕ)
    (rng : ℕ → ℕ) (st : RedisState) (share : ShareSubmission) :
    Except PoolError ShareValidation :=
  match is_duplicate share with
  | Except.error e => Except.error e
  | Except.ok true => Except.error PoolError.duplicateShare
  | Except.ok false =>
    match share.share_type with
    | ShareType.computationProof nonce wc steps =>
        validate_computation_proof sha256 wbytes rng st share.job_id wc steps nonce
    | ShareType.validBlock nonce proof =>
        validate_block sha256 st share.job_id proof nonce

/-! ## Coordinator (src/coordinator.rs) -/

/-- coordinator.rs lines 57-74: PoolCoordinator::register_miner. -/
def register_miner (st : RedisState) (address worker_name : String) (now : ℤ) : RedisState :=
  let miner :=
    match get_miner st address with
    | some m => { m with worker_name := worker_name, is_active := true }
    | none => MinerRecord.new address worker_name now
  save_miner st miner

/-- coordinator.rs lines 82-142: PoolCoordinator::submit_share.  The fresh
UUIDv4 share id and Utc::now() are passed in as new_id and now; the
validator's external dependencies are the same parameters as above.
trigger_block_payout (lines 216-226) only logs, so it does not change the
state. -/
def submit_share (sha256 : List ℕ → List ℕ) (wbytes : List ℕ → ℕ → List ℕ) (rng : ℕ → ℕ)
    (new_id : String) (now : ℤ) (st : RedisState) (submission : ShareSubmission) :
    Except PoolError (RedisState × ShareValidation) := do
  let validation ← validate_share sha256 wbytes rng st submission
  if validation.is_valid then
    let share_record : ShareRecord :=
      { id := new_id, miner_address := submission.miner_id, job_id := submission.job_id,
        nonce := submission.share_type.nonce, difficulty := validation.difficulty,
        timestamp := now, is_valid := true, is_block := validation.is_block,
        reward_units := validation.reward_units }
    let st1 ← save_share st share_record
    let st2 :=
      match get_miner st1 submission.miner_id with
      | some miner =>
          save_miner st1
            { miner with
              shares_submitted := (miner.shares_submitted + 1) % MOD64,
              shares_valid := (miner.shares_valid + 1) % MOD64,
              last_share_time := now,
              total_difficulty := (miner.total_difficulty + validation.difficulty) % MOD128 }
      | none => st1
    let st3 :=
      match get_reputation st2 submission.miner_id with
      | some rep =>
          let rep1 := { rep with valid_shares := (rep.valid_shares + 1) % MOD64 }
          let rep2 :=
            if validation.is_block then
              { rep1 with blocks_found := (rep1.blocks_found + 1) % MOD64,
                          last_block_time := some now }
            else rep1
          save_reputation st2 rep2.update_reputation
      | none =>
          let rep1 := { MinerReputation.new submission.miner_id with valid_shares := 1 }
          let rep2 :=
            if validation.is_block then
              { rep1 with blocks_found := 1, last_block_time := some now }
            else rep1
          save_reputation st2 rep2
    Except.ok (st3, validation)
  else
    Except.ok (st, validation)

/-! ## Payout calculator (src/payout.rs) -/

/-- HashMap entry(k).or_insert(0) += v with u64 wrapping; the map is
modelled as an association list in key-insertion order. -/
def bumpMap : List (String × ℕ) → String → ℕ → List (String × ℕ)
  | [], k, v => [(k, v % MOD64)]
  | (k2, v2) :: rest, k, v =>
      if k2 = k then (k2, (v2 + v) % MOD64) :: rest else (k2, v2) :: bumpMap rest k v

/-- payout.rs lines 53-64: the body of the payout loop: compute the miner
reward in f64 arithmetic truncated to u64 and push a PendingPayout when it
is positive. -/
def payout_push (distributable_reward total_units : ℕ) (window_start window_end : ℤ)
    (miner_share_counts : List (String × ℕ)) (payouts : List PendingPayout)
    (p : String × ℕ) : List PendingPayout :=
  let miner_reward :=
    (((F64.ofNat distributable_reward).mul (F64.ofNat p.2)).div (F64.ofNat total_units)).toU64
  if 0 < miner_reward then
    payouts ++ [⟨p.1, miner_reward, (window_start, window_end),
                (miner_share_counts.lookup p.1).getD 0⟩]
  else payouts

/-- payout.rs lines 23-74: PayoutManager::calculate_payouts.  Pulls the
shares in the window, sums reward units (u64), takes the pool fee and each
miner reward in f64 arithmetic truncated back to u64, and pushes a
PendingPayout for every miner whose reward is positive. -/
def calculate_payouts (pool_fee_percent : F64) (st : RedisState) (block_reward : ℕ)
    (window_start window_end : ℤ) : Except PoolError (List PendingPayout) :=
  match get_shares_in_window st window_start window_end with
  | Except.error e => Except.error e
  | Except.ok shares =>
    let total_units := shares.foldl (fun acc s => (acc + s.reward_units) % MOD64) 0
    if total_units = 0 then
      Except.ok []
    else
      let pool_fee := (((F64.ofNat block_reward).mul pool_fee_percent).div (F64.ofNat 100)).toU64
      let distributable_reward := wrapSub64 block_reward pool_fee
      let miner_units := shares.foldl (fun m s => bumpMap m s.miner_address s.reward_units) []
      let miner_share_counts := shares.foldl (fun m s => bumpMap m s.miner_address 1) []
      Except.ok (miner_units.foldl
        (payout_push distributable_reward total_units window_start window_end miner_share_counts)
        [])

/-! ## Stratum protocol (src/stratum/protocol.rs, src/stratum/server.rs)

JSON values are modelled by a small inductive; serde_json string framing is
external, so requests enter the model already decoded as StratumMessage. -/

/-- A JSON value (numbers restricted to integers, the only kind this
protocol carries). -/
inductive JVal where
  | null
  | jbool (b : Bool)
  | num (n : ℤ)
  | str (s : String)
  | arr (elems : List JVal)
  | obj (fields : List (String × JVal))

/-- serde_json Value::as_array. -/
def JVal.asArr : JVal → Option (List JVal)
  | .arr l => some l
  | _ => none

/-- serde_json Value::as_str. -/
def JVal.asStr : JVal → Option String
  | .str s => some s
  | _ => none

/-- protocol.rs lines 17-23: StratumError. -/
structure StratumError where
  code : ℤ
  message : String
  data : Option JVal

/-- protocol.rs lines 4-15: StratumMessage. -/
structure StratumMessage where
  id : Option ℕ
  method : Option String
  params : Option JVal
  result : Option JVal
  error : Option StratumError

/-- protocol.rs lines 48-57: ShareSubmissionData (note: no nonce field). -/
inductive ShareSubmissionData where
  | computationProof (witness_commitment : List ℕ) (computation_steps : ℕ)
  | validBlock (proof : List ℕ)
  deriving DecidableEq

/-- protocol.rs lines 25-46: StratumRequest. -/
inductive StratumRequest where
  | subscribe (id : ℕ) (user_agent : Option String)
  | authorize (id : ℕ) (worker_name : String) (password : Option String)
  | submit (id : ℕ) (worker_name : String) (job_id : String) (nonce : ℕ)
      (share_data : ShareSubmissionData)
  | getStatus (id : ℕ)
  deriving DecidableEq

/-- protocol.rs lines 59-73: StratumResponse. -/
inductive StratumResponse where
  | result (id : ℕ) (result : JVal)
  | error (id : ℕ) (error : StratumError)
  | notification (method : String) (params : JVal)

/-- Modelled from the spec: a u64 decoded by serde_json from a JSON number
(the serde implementation is external to the repository). -/
def u64_from_json : JVal → Option ℕ
  | .num n => if 0 ≤ n ∧ n < 2 ^ 64 then some n.toNat else none
  | _ => none

/-- Modelled from the spec: a u8 decoded by serde_json from a JSON number. -/
def u8_from_json : JVal → Option ℕ
  | .num n => if 0 ≤ n ∧ n < 256 then some n.toNat else none
  | _ => none

/-- Modelled from the spec: a byte sequence decoded from a JSON array. -/
def bytes_from_json (l : List JVal) : Option (List ℕ) :=
  l.mapM u8_from_json

/-- Modelled from the spec: serde's externally tagged decoding of ShareType,
a one-field object ComputationProof or ValidBlock (spec section 6); the
witness commitment must be exactly 32 bytes. -/
def share_type_from_json : JVal → Option ShareType
  | .obj [("ComputationProof", .obj f)] =>
    (match f.lookup "nonce", f.lookup "witness_commitment", f.lookup "computation_steps" with
     | some jn, some (.arr jwc), some js =>
       (match u64_from_json jn, bytes_from_json jwc, u64_from_json js with
        | some n, some wc, some steps =>
            if jwc.length = 32 then some (ShareType.computationProof n wc steps) else none
        | _, _, _ => none)
     | _, _, _ => none)
  | .obj [("ValidBlock", .obj f)] =>
    (match f.lookup "nonce", f.lookup "proof" with
     | some jn, some (.arr jp) =>
       (match u64_from_json jn, bytes_from_json jp with
        | some n, some p => some (ShareType.validBlock n p)
        | _, _ => none)
     | _, _ => none)
  | _ => none

/-- Modelled from the spec: serde decoding of a ShareSubmission object with
fields job_id, miner_id and the tagged share_type (spec section 6). -/
def share_submission_from_json : JVal → Option ShareSubmission
  | .obj f =>
    (match f.lookup "job_id", f.lookup "miner_id", f.lookup "share_type" with
     | some (.str j), some (.str m), some stj =>
         (share_type_from_json stj).map (fun t => ⟨j, m, t⟩)
     | _, _, _ => none)
  | _ => none

/-- protocol.rs lines 76-162: StratumMessage::parse_request.  Note line 144:
the Submit request is built with nonce hard-coded to 0 (the source comment
reads "Will be extracted from share_data"). -/
def parse_request (m : StratumMessage) : Except StratumError StratumRequest :=
  match m.method with
  | none => Except.error ⟨-32600, "Invalid request: missing method", none⟩
  | some method =>
    match m.id with
    | none => Except.error ⟨-32600, "Invalid request: missing id", none⟩
    | some id =>
      match method with
      | "mining.subscribe" =>
          Except.ok (StratumRequest.subscribe id
            (((m.params.bind JVal.asArr).bind (fun a => a.get? 0)).bind JVal.asStr))
      | "mining.authorize" =>
          (match m.params.bind JVal.asArr with
           | none => Except.error ⟨-32602, "Invalid params", none⟩
           | some params =>
             match (params.get? 0).bind JVal.asStr with
             | none => Except.error ⟨-32602, "Missing worker name", none⟩
             | some worker_name =>
                 Except.ok (StratumRequest.authorize id worker_name
                   ((params.get? 1).bind JVal.asStr)))
      | "mining.submit" =>
          (match m.params with
           | none => Except.error ⟨-32602, "Invalid params", none⟩
           | some params =>
             match share_submission_from_json params with
             | none => Except.error ⟨-32602, "Invalid submission format", none⟩
             | some submission =>
                 Except.ok (StratumRequest.submit id submission.miner_id submission.job_id 0
                   (match submission.share_type with
                    | ShareType.computationProof _ wc steps =>
                        ShareSubmissionData.computationProof wc steps
                    | ShareType.validBlock _ proof =>
                        ShareSubmissionData.validBlock proof)))
      | "mining.get_status" => Except.ok (StratumRequest.getStatus id)
      | _ => Except.error ⟨-32601, "Unknown method: " ++ method, none⟩

/-- protocol.rs lines 165-191: StratumResponse::to_message. -/
def StratumResponse.to_message : StratumResponse → StratumMessage
  | .result i r => ⟨some i, none, none, some r, none⟩
  | .error i e => ⟨some i, none, none, none, some e⟩
  | .notification mth p => ⟨none, some mth, some p, none, none⟩

/-- server.rs lines 140-154: the ShareType rebuilt in the Submit arm of
handle_stratum_request; its nonce is hard-coded to 0 (the source comment
reads "Should be extracted from actual submission"). -/
def submit_arm_share_type : ShareSubmissionData → ShareType
  | ShareSubmissionData.computationProof wc steps => ShareType.computationProof 0 wc steps
  | ShareSubmissionData.validBlock proof => ShareType.validBlock 0 proof

/-- server.rs lines 156-160: the ShareSubmission handed to
Coordinator.submit_share by the Submit arm. -/
def submit_arm_submission (worker_name job_id : String) (d : ShareSubmissionData) :
    ShareSubmission :=
  ⟨job_id, worker_name, submit_arm_share_type d⟩

/-- The Debug rendering of a StratumError used in the on_message error path,
abstracted to the error message. -/
def stratum_error_debug (e : StratumError) : String := e.message

/-- server.rs lines 206-218: ConnectionHandler::on_message for the server.
The frame has already been decoded by serde_json (external); the rest of
the pipeline (handle_stratum_request with its coordinator) is the handle
parameter.  The returned list is the frames sent to the client; an error
return sends none, and connection.rs lines 68-74 merely logs it. -/
def on_message (handle : StratumRequest → Except PoolError StratumResponse)
    (msg : StratumMessage) : Except PoolError (List StratumMessage) :=
  match parse_request msg with
  | Except.error e =>
      Except.error (PoolError.stratumProtocol ("Invalid request: " ++ stratum_error_debug e))
  | Except.ok req =>
    match handle req with
    | Except.error e => Except.error e
    | Except.ok resp => Except.ok [resp.to_message]

/-! ## Specification-side definitions -/

/-- Spec formula for the share difficulty score: 256 per leading zero byte,
plus 32 times the leading-zero-bit count of the first non-zero byte,
clamped to at least 1. -/
def spec_share_score (c : List ℕ) : ℕ :=
  Max.max 1 (256 * (c.takeWhile (fun b => b == 0)).length +
    (((c.dropWhile (fun b => b == 0)).head?.map (fun b => u8_leading_zeros b * 32)).getD 0))

/-- The big-endian integer value of a byte string; the spec states the
target comparison as hash ≤ target on 32-byte big-endian values. -/
def beNum : List ℕ → ℕ
  | [] => 0
  | b :: rest => b * 256 ^ rest.length + beNum rest

/-- A SHA-256 stand-in for concrete runs: the all-zero digest. -/
def sha_zero (b : List ℕ) : List ℕ := List.replicate 32 0

/-- A witness-serialization stand-in for concrete runs. -/
def wbytes_zero (c : List ℕ) (n : ℕ) : List ℕ := []

/-- An RNG stand-in for concrete runs. -/
def rng_zero (i : ℕ) : ℕ := 0

/-- An all-0xff target job, met by any hash. -/
def c1_job : JobTemplate := ⟨"j", [], List.replicate 32 255, [], 0, [], 0, ""⟩

/-- A store holding only the job, no miners, no shares. -/
def c1_state : RedisState := ⟨[], [], [], [], [], [("j", c1_job)], some "j", []⟩

/-- One fixed (jobId, minerId, nonce) = ("j", "alice", 42) block submission. -/
def c1_submission : ShareSubmission := ⟨"j", "alice", ShareType.validBlock 42 [1, 2, 3]⟩

/-- Submit-pipeline fixture: a mining.submit params object whose
share_type.nonce is 42. -/
def c2_params : JVal :=
  JVal.obj [("job_id", JVal.str "j"), ("miner_id", JVal.str "alice"),
    ("share_type", JVal.obj [("ComputationProof", JVal.obj
      [("nonce", JVal.num 42),
       ("witness_commitment", JVal.arr (List.replicate 32 (JVal.num 5))),
       ("computation_steps", JVal.num 7)])])]

/-- The mining.submit frame carrying c2_params. -/
def c2_message : StratumMessage := ⟨some 1, some "mining.submit", some c2_params, none, none⟩

/-- An all-0xff target job for the C7 run. -/
def c7_job : JobTemplate := ⟨"j7", [], List.replicate 32 255, [], 0, [], 0, ""⟩

/-- A store holding the job and no miner records at all. -/
def c7_state : RedisState := ⟨[], [], [], [], [], [("j7", c7_job)], some "j7", []⟩

/-- A valid block submission from "bob", for whom no MinerRecord exists. -/
def c7_submission : ShareSubmission := ⟨"j7", "bob", ShareType.validBlock 7 [9]⟩

/-- An all-0xff target job for the C6 witness. -/
def c6_job : JobTemplate := ⟨"j6", [], List.replicate 32 255, [], 0, [], 0, ""⟩

/-- A store holding only the C6 job. -/
def c6_state : RedisState := ⟨[], [], [], [], [], [("j6", c6_job)], some "j6", []⟩

/-- A 32-byte digest stand-in whose later bytes differ from the C5 witness
commitment. -/
def c5_sha (b : List ℕ) : List ℕ := List.range 32

/-- The C5 witness RNG: always draws 3. -/
def c5_rng (i : ℕ) : ℕ := 3

/-- A witness commitment agreeing with the digest on the first 8 bytes only. -/
def c5_wc : List ℕ := List.range 8 ++ List.replicate 24 99

/-- The C5 witness job. -/
def c5_job : JobTemplate := ⟨"j5", [], [], [], 0, [], 0, ""⟩

/-- A store holding only the C5 job. -/
def c5_state : RedisState := ⟨[], [], [], [], [], [("j5", c5_job)], some "j5", []⟩

/-- An unknown-method request frame with id 7. -/
def c8_message : StratumMessage := ⟨some 7, some "mining.ping", none, none, none⟩

/-- A trivial request handler standing in for handle_stratum_request. -/
def c8_handle (r : StratumRequest) : Except PoolError StratumResponse :=
  Except.ok (StratumResponse.result 0 JVal.null)

/-- A request frame with an id but no method. -/
def c8_message2 : StratumMessage := ⟨some 3, none, none, none, none⟩

/-- The single share of the C3 counterexample window: miner "m" holds all
(one) reward units. -/
def c3_share : ShareRecord := ⟨"s1", "m", "j", 0, 1, 0, true, false, 1⟩

/-- A store whose shares:window holds exactly that share. -/
def c3_state : RedisState := ⟨[], [], [("s1", c3_share)], [], [("s1", 0)], [], none, []⟩

/-- Wrapping u64 sum of the reward units of the shares of one miner,
started from x. -/
def miner_wrap_units_from (shares : List ShareRecord) (a : String) (x : ℕ) : ℕ :=
  shares.foldl (fun acc s => if s.miner_address = a then (acc + s.reward_units) % MOD64 else acc) x

/-- Wrapping u64 sum of the reward units of the shares of one miner. -/
def miner_wrap_units (shares : List ShareRecord) (a : String) : ℕ :=
  miner_wrap_units_from shares a 0

/-- Wrapping u64 sum of all reward units in the window. -/
def window_total_units (shares : List ShareRecord) : ℕ :=
  shares.foldl (fun acc s => (acc + s.reward_units) % MOD64) 0

/-- The pool fee as the code computes it: f64 arithmetic truncated to u64. -/
def pool_fee_f64 (fee : F64) (block_reward : ℕ) : ℕ :=
  (((F64.ofNat block_reward).mul fee).div (F64.ofNat 100)).toU64

/-- The per-miner amount as the code computes it: f64 arithmetic over the
wrapped per-miner aggregate and window total, truncated to u64. -/
def payout_amount_f64 (fee : F64) (block_reward : ℕ) (shares : List ShareRecord) (a : String) : ℕ :=
  (((F64.ofNat (wrapSub64 block_reward (pool_fee_f64 fee block_reward))).mul
      (F64.ofNat (miner_wrap_units shares a))).div
    (F64.ofNat (window_total_units shares))).toU64

/-- The share-difficulty loop splits into the zero-prefix count and the
first non-zero byte contribution. -/
theorem shareDifficultyLoop_eq (c : List ℕ) :
    shareDifficultyLoop c =
      256 * (c.takeWhile (fun b => b == 0)).length +
        (((c.dropWhile (fun b => b == 0)).head?.map (fun b => u8_leading_zeros b * 32)).getD 0) := by
  induction c with
  | nil => simp [shareDifficultyLoop]
  | cons b rest ih =>
    by_cases hb : b = 0
    · subst hb
      simp only [shareDifficultyLoop, if_pos rfl, List.takeWhile_cons, List.dropWhile_cons]
      simp [ih]
      ring
    · simp [shareDifficultyLoop, List.takeWhile_cons, List.dropWhile_cons, hb]

/-- C4: for every 32-byte witness commitment, the share difficulty score is
256 for each leading zero byte plus leading-zero-bits times 32 for the
first non-zero byte, clamped to at least 1. -/
theorem c4_share_difficulty_spec (c : List ℕ) (hlen : c.length = 32)
    (hbytes : ∀ b ∈ c, b < 256) :
    calculate_share_difficulty c = spec_share_score c := by
  unfold calculate_share_difficulty spec_share_score
  rw [shareDifficultyLoop_eq]
  exact Nat.max_comm _ _

/-- C4 witness: the score of a concrete 32-byte commitment. -/
theorem c4_share_difficulty_spec_witness :
    calculate_share_difficulty (0 :: 7 :: List.replicate 30 255) =
      spec_share_score (0 :: 7 :: List.replicate 30 255) :=
  c4_share_difficulty_spec (0 :: 7 :: List.replicate 30 255) (by decide) (by decide)

/-- C9: the proof the validator builds uses the range nonce..nonce+1 in u64
arithmetic; the rand draw in verify is defined (the range is non-empty)
precisely when nonce < u64::MAX, and at nonce = u64::MAX the wrapped upper
end is 0, making the draw range empty. -/
theorem c9_nonce_range_total (wc : List ℕ) (steps nonce : ℕ) (h : nonce < MOD64) :
    (gen_range_defined (computation_proof_for wc steps nonce).nonce_lo
        (computation_proof_for wc steps nonce).nonce_hi ↔ nonce < MOD64 - 1) ∧
    (nonce = MOD64 - 1 → (computation_proof_for wc steps nonce).nonce_hi = 0) := by
  unfold gen_range_defined computation_proof_for MOD64 at *
  simp only []
  constructor
  · constructor
    · intro hlt
      omega
    · intro hlt
      omega
  · intro heq
    omega

/-- C9 witness: at nonce 5 the draw range is defined. -/
theorem c9_nonce_range_total_witness :
    (gen_range_defined (computation_proof_for [] 0 5).nonce_lo
        (computation_proof_for [] 0 5).nonce_hi ↔ 5 < MOD64 - 1) ∧
    ((5 : ℕ) = MOD64 - 1 → (computation_proof_for [] 0 5).nonce_hi = 0) :=
  c9_nonce_range_total [] 0 5 (by decide)

/-- The fetch loop of get_shares_in_window appends exactly the records that
still exist, in order: it is filterMap of the lookup. -/
theorem window_fetch_step_foldl (st : RedisState) :
    ∀ (ids : List String) (acc : List ShareRecord),
      ids.foldl (window_fetch_step st) acc = acc ++ ids.filterMap (fun i => st.shares.lookup i) := by
  intro ids
  induction ids with
  | nil => intro acc; simp
  | cons i rest ih =>
    intro acc
    cases hf : st.shares.lookup i <;>
      simp [List.foldl_cons, window_fetch_step, hf, ih, List.filterMap_cons]

/-- C10: window reads never fail; the result is exactly the records of the
window index entries whose share record still exists, dangling ids being
skipped silently. -/
theorem c10_window_reads_skip_dangling (st : RedisState) (start stop : ℤ) :
    get_shares_in_window st start stop =
      Except.ok ((zrangebyscore st.sharesWindow start stop).filterMap
        (fun i => st.shares.lookup i)) := by
  unfold get_shares_in_window
  simp only [window_fetch_step_foldl, List.nil_append]

/-! ## Concrete fixtures for the code-bug claims -/

/-- C1: the duplicate check is a stub (is_duplicate always returns false)
and save_share deduplicates only by the freshly drawn UUID, so submitting
the identical share twice stores two ShareRecords with the same
(jobId, minerId, nonce), where the claim requires a DuplicateShare error. -/
theorem c1_duplicate_not_detected :
    (do
      let r1 ← submit_share sha_zero wbytes_zero rng_zero "id-1" 0 c1_state c1_submission
      let r2 ← submit_share sha_zero wbytes_zero rng_zero "id-2" 1 r1.1 c1_submission
      Except.ok (r2.1.shares.map (fun p => (p.2.job_id, p.2.miner_address, p.2.nonce)))) =
      Except.ok [("j", "alice", 42), ("j", "alice", 42)] := by
  rfl

/-- C2: the request params decode to a submission with nonce 42, yet
parse_request builds the Submit request with nonce 0 and the server Submit
arm rebuilds the ShareType handed to submitShare with nonce 0. -/
theorem c2_submit_nonce_zero :
    share_submission_from_json c2_params =
      some ⟨"j", "alice", ShareType.computationProof 42 (List.replicate 32 5) 7⟩ ∧
    parse_request c2_message =
      Except.ok (StratumRequest.submit 1 "alice" "j" 0
        (ShareSubmissionData.computationProof (List.replicate 32 5) 7)) ∧
    (submit_arm_submission "alice" "j"
        (ShareSubmissionData.computationProof (List.replicate 32 5) 7)).share_type.nonce = 0 ∧
    (42 : ℕ) ≠ 0 :=
  ⟨rfl, rfl, rfl, by decide⟩

/-- C7: submit_share persists the ShareRecord before looking the miner up
and skips the stats update when the miner record is absent, so a share is
stored under address "bob" while no MinerRecord for "bob" exists. -/
theorem c7_share_stored_without_miner :
    ((submit_share sha_zero wbytes_zero rng_zero "id-7" 0 c7_state c7_submission).toOption.map
      (fun r => (r.1.shares.map (fun p => p.2.miner_address), get_miner r.1 "bob"))) =
      some (["bob"], none) := by
  rfl

/-- Bounds: a byte string with bytes below 256 has big-endian value below
256 to its length. -/
theorem beNum_lt_pow (l : List ℕ) (h : ∀ b ∈ l, b < 256) : beNum l < 256 ^ l.length := by
  induction l with
  | nil => simp [beNum]
  | cons b rest ih =>
    have hb : b < 256 := h b (List.mem_cons_self b rest)
    have hr : beNum rest < 256 ^ rest.length := ih (fun x hx => h x (List.mem_cons_of_mem b hx))
    simp only [beNum, List.length_cons]
    calc b * 256 ^ rest.length + beNum rest
        < b * 256 ^ rest.length + 256 ^ rest.length := by omega
      _ = (b + 1) * 256 ^ rest.length := by ring
      _ ≤ 256 * 256 ^ rest.length := Nat.mul_le_mul_right _ (by omega)
      _ = 256 ^ (rest.length + 1) := by ring

/-- The byte-wise walk of meets_target decides exactly the big-endian
numeric comparison hash ≤ target on equal-length byte strings. -/
theorem meets_target_iff_beNum_le :
    ∀ (h t : List ℕ), h.length = t.length → (∀ b ∈ h, b < 256) → (∀ b ∈ t, b < 256) →
      (meets_target h t = true ↔ beNum h ≤ beNum t)
  | [], [], _, _, _ => by simp [meets_target, beNum]
  | [], t :: ts, hlen, _, _ => by simp at hlen
  | h :: hs, [], hlen, _, _ => by simp at hlen
  | a :: as, b :: bs, hlen, hh, ht => by
    have hlen2 : as.length = bs.length := by simpa using hlen
    have ha : a < 256 := hh a (List.mem_cons_self a as)
    have hb2 : b < 256 := ht b (List.mem_cons_self b bs)
    have hx : beNum as < 256 ^ bs.length := by
      rw [← hlen2]
      exact beNum_lt_pow as (fun x hx => hh x (List.mem_cons_of_mem a hx))
    have hy : beNum bs < 256 ^ bs.length :=
      beNum_lt_pow bs (fun x hx => ht x (List.mem_cons_of_mem b hx))
    have ih := meets_target_iff_beNum_le as bs hlen2
      (fun x hx => hh x (List.mem_cons_of_mem a hx))
      (fun x hx => ht x (List.mem_cons_of_mem b hx))
    simp only [meets_target, beNum, hlen2]
    by_cases hab : a < b
    · rw [if_pos hab]
      have hlt : a * 256 ^ bs.length + beNum as < b * 256 ^ bs.length + beNum bs := by
        calc a * 256 ^ bs.length + beNum as
            < a * 256 ^ bs.length + 256 ^ bs.length := by omega
          _ = (a + 1) * 256 ^ bs.length := by ring
          _ ≤ b * 256 ^ bs.length := Nat.mul_le_mul_right _ (by omega)
          _ ≤ b * 256 ^ bs.length + beNum bs := Nat.le_add_right _ _
      simp [Nat.le_of_lt hlt]
    · by_cases hba : b < a
      · rw [if_neg hab, if_pos hba]
        have hgt : b * 256 ^ bs.length + beNum bs < a * 256 ^ bs.length + beNum as := by
          calc b * 256 ^ bs.length + beNum bs
              < b * 256 ^ bs.length + 256 ^ bs.length := by omega
            _ = (b + 1) * 256 ^ bs.length := by ring
            _ ≤ a * 256 ^ bs.length := Nat.mul_le_mul_right _ (by omega)
            _ ≤ a * 256 ^ bs.length + beNum as := Nat.le_add_right _ _
        constructor
        · intro hfalse; exact absurd hfalse (by simp)
        · intro hle; omega
      · have hab2 : a = b := by omega
        subst hab2
        rw [if_neg hab, if_neg hba]
        rw [ih]
        omega

/-- The block-difficulty loop counts 256 per leading 0xff byte. -/
theorem blockDifficultyLoop_eq (t : List ℕ) :
    blockDifficultyLoop t = 256 * (t.takeWhile (fun b => b == 255)).length := by
  induction t with
  | nil => simp [blockDifficultyLoop]
  | cons b rest ih =>
    by_cases hb : b = 255
    · subst hb
      simp only [blockDifficultyLoop, if_pos rfl, List.takeWhile_cons]
      simp [ih]
      ring
    · simp [blockDifficultyLoop, List.takeWhile_cons, hb]

/-- C6: for a block submission against an existing job, validation fails
with InsufficientDifficulty exactly when the SHA-256 of the proof exceeds
the job target in big-endian order (equality meets the target); otherwise
it returns difficulty 256 per leading 0xff target byte clamped to 1 and
scaled by 1000, reward units 1,000,000 and isBlock true. -/
theorem c6_block_validation (sha256 : List ℕ → List ℕ) (st : RedisState) (job_id : String)
    (job : JobTemplate) (proof : List ℕ) (nonce : ℕ)
    (hjob : get_job st job_id = some job)
    (hhlen : (sha256 proof).length = 32) (htlen : job.target.length = 32)
    (hhbytes : ∀ b ∈ sha256 proof, b < 256) (htbytes : ∀ b ∈ job.target, b < 256) :
    (validate_block sha256 st job_id proof nonce = Except.error PoolError.insufficientDifficulty ↔
      ¬ beNum (sha256 proof) ≤ beNum job.target) ∧
    (beNum (sha256 proof) ≤ beNum job.target →
      validate_block sha256 st job_id proof nonce =
        Except.ok ⟨true, Max.max 1 (256 * (job.target.takeWhile (fun b => b == 255)).length) * 1000,
          true, BLOCK_REWARD_UNITS⟩) := by
  have hmt := meets_target_iff_beNum_le (sha256 proof) job.target (by rw [hhlen, htlen])
    hhbytes htbytes
  have hdiff : calculate_block_difficulty job.target =
      Max.max 1 (256 * (job.target.takeWhile (fun b => b == 255)).length) * 1000 := by
    unfold calculate_block_difficulty
    rw [blockDifficultyLoop_eq, Nat.max_comm]
  cases hb : meets_target (sha256 proof) job.target with
  | true =>
    have hle : beNum (sha256 proof) ≤ beNum job.target := hmt.mp hb
    constructor
    · constructor
      · intro h1
        simp only [validate_block, hjob, hb, if_true] at h1
        exact Except.noConfusion h1
      · intro h1; exact absurd hle h1
    · intro h1
      simp only [validate_block, hjob, hb, if_true, hdiff]
  | false =>
    have hnle : ¬ beNum (sha256 proof) ≤ beNum job.target := by
      intro hle
      have h2 := hmt.mpr hle
      rw [hb] at h2
      exact Bool.noConfusion h2
    constructor
    · constructor
      · intro h1; exact hnle
      · intro h1
        simp only [validate_block, hjob, hb]
        rfl
    · intro h1; exact absurd h1 hnle

/-- C6 witness: a concrete block validation against the all-0xff target. -/
theorem c6_block_validation_witness :
    (validate_block sha_zero c6_state "j6" [1] 0 = Except.error PoolError.insufficientDifficulty ↔
      ¬ beNum (sha_zero [1]) ≤ beNum c6_job.target) ∧
    (beNum (sha_zero [1]) ≤ beNum c6_job.target →
      validate_block sha_zero c6_state "j6" [1] 0 =
        Except.ok ⟨true,
          Max.max 1 (256 * (c6_job.target.takeWhile (fun b => b == 255)).length) * 1000,
          true, BLOCK_REWARD_UNITS⟩) :=
  c6_block_validation sha_zero c6_state "j6" c6_job [1] 0 rfl (by decide) (by decide)
    (by decide) (by decide)

/-- C5: for the computation-proof path against an existing job with the
spot-check draws from the one-element range nonce..nonce+1, verification
succeeds exactly when the first 8 bytes of the recomputed witness hash
match the first 8 bytes of the witness commitment; a mismatch yields
InvalidProof. -/
theorem c5_prefix8_tolerance (sha256 : List ℕ → List ℕ) (wbytes : List ℕ → ℕ → List ℕ)
    (rng : ℕ → ℕ) (st : RedisState) (job_id : String) (job : JobTemplate)
    (wc : List ℕ) (steps nonce : ℕ)
    (hjob : get_job st job_id = some job) (hmax : nonce + 1 < MOD64)
    (hrng : ∀ i < SPOT_CHECK_COUNT,
      (computation_proof_for wc steps nonce).nonce_lo ≤ rng i ∧
        rng i < (computation_proof_for wc steps nonce).nonce_hi) :
    (validate_computation_proof sha256 wbytes rng st job_id wc steps nonce =
        Except.error PoolError.invalidProof ↔
      ¬ wc.take 8 = (sha256 (wbytes job.block_commitment nonce)).take 8) ∧
    (wc.take 8 = (sha256 (wbytes job.block_commitment nonce)).take 8 →
      validate_computation_proof sha256 wbytes rng st job_id wc steps nonce =
        Except.ok ⟨true, calculate_share_difficulty wc, false,
          calculate_share_difficulty wc * steps % MOD64⟩) := by
  have heq : ∀ i < SPOT_CHECK_COUNT, rng i = nonce := by
    intro i hi
    have h2 := hrng i hi
    simp only [computation_proof_for, Nat.mod_eq_of_lt hmax] at h2
    omega
  have hver : (computation_proof_for wc steps nonce).verify sha256 wbytes rng
      job.block_commitment SPOT_CHECK_COUNT =
      (wc.take 8 == (sha256 (wbytes job.block_commitment nonce)).take 8) := by
    have hmap : (List.range SPOT_CHECK_COUNT).map rng = List.replicate SPOT_CHECK_COUNT nonce := by
      rw [List.eq_replicate_iff]
      constructor
      · simp
      · intro b hb
        rcases List.mem_map.mp hb with ⟨i, hi, rfl⟩
        exact heq i (List.mem_range.mp hi)
    unfold ComputationProof.verify
    rw [hmap]
    show (List.replicate 5 nonce).all _ = _
    simp [List.replicate, List.all_cons, computation_proof_for, Bool.and_self]
  have hok : wc.take 8 = (sha256 (wbytes job.block_commitment nonce)).take 8 →
      validate_computation_proof sha256 wbytes rng st job_id wc steps nonce =
        Except.ok ⟨true, calculate_share_difficulty wc, false,
          calculate_share_difficulty wc * steps % MOD64⟩ := by
    intro hc
    have hbtrue : (wc.take 8 == (sha256 (wbytes job.block_commitment nonce)).take 8) = true := by
      simp [hc]
    simp only [validate_computation_proof, hjob, hver, hbtrue, if_true]
  have herr : ¬ wc.take 8 = (sha256 (wbytes job.block_commitment nonce)).take 8 →
      validate_computation_proof sha256 wbytes rng st job_id wc steps nonce =
        Except.error PoolError.invalidProof := by
    intro hc
    have hbfalse : (wc.take 8 == (sha256 (wbytes job.block_commitment nonce)).take 8) = false := by
      simp [hc]
    simp only [validate_computation_proof, hjob, hver, hbfalse]
    rfl
  constructor
  · constructor
    · intro h1 hc
      rw [hok hc] at h1
      exact Except.noConfusion h1
    · intro h1
      exact herr h1
  · exact hok

/-- C5 witness: a commitment matching the digest on its 8-byte prefix but
not beyond still verifies. -/
theorem c5_prefix8_tolerance_witness :
    (validate_computation_proof c5_sha wbytes_zero c5_rng c5_state "j5" c5_wc 2 3 =
        Except.error PoolError.invalidProof ↔
      ¬ c5_wc.take 8 = (c5_sha (wbytes_zero c5_job.block_commitment 3)).take 8) ∧
    (c5_wc.take 8 = (c5_sha (wbytes_zero c5_job.block_commitment 3)).take 8 →
      validate_computation_proof c5_sha wbytes_zero c5_rng c5_state "j5" c5_wc 2 3 =
        Except.ok ⟨true, calculate_share_difficulty c5_wc, false,
          calculate_share_difficulty c5_wc * 2 % MOD64⟩) :=
  c5_prefix8_tolerance c5_sha wbytes_zero c5_rng c5_state "j5" c5_job c5_wc 2 3 rfl
    (by decide) (by decide)

/-- C8 amended: parse_request classifies failures as -32600 for a missing
method or id, -32601 (with the exact Unknown method error) for every
unknown method, and -32602 for every malformed-params path of authorize
and submit, but on_message wraps every parse failure into a
StratumProtocol error and returns it; no error response frame is sent to
the client. -/
theorem c8_parse_errors_not_sent (handle : StratumRequest → Except PoolError StratumResponse)
    (msg : StratumMessage) (e : StratumError)
    (hp : parse_request msg = Except.error e) :
    (e.code = -32600 ∨ e.code = -32601 ∨ e.code = -32602) ∧
    (msg.method = none → e.code = -32600) ∧
    (msg.method ≠ none → msg.id = none → e.code = -32600) ∧
    (∀ m i, msg.method = some m → msg.id = some i →
      m ≠ "mining.subscribe" → m ≠ "mining.authorize" → m ≠ "mining.submit" →
      m ≠ "mining.get_status" →
      parse_request msg = Except.error ⟨-32601, "Unknown method: " ++ m, none⟩) ∧
    (∀ i, msg.method = some "mining.authorize" → msg.id = some i →
      msg.params.bind JVal.asArr = none →
      parse_request msg = Except.error ⟨-32602, "Invalid params", none⟩) ∧
    (∀ i params, msg.method = some "mining.authorize" → msg.id = some i →
      msg.params.bind JVal.asArr = some params →
      (params.get? 0).bind JVal.asStr = none →
      parse_request msg = Except.error ⟨-32602, "Missing worker name", none⟩) ∧
    (∀ i, msg.method = some "mining.submit" → msg.id = some i →
      msg.params = none →
      parse_request msg = Except.error ⟨-32602, "Invalid params", none⟩) ∧
    (∀ i params, msg.method = some "mining.submit" → msg.id = some i →
      msg.params = some params → share_submission_from_json params = none →
      parse_request msg = Except.error ⟨-32602, "Invalid submission format", none⟩) ∧
    on_message handle msg = Except.error
      (PoolError.stratumProtocol ("Invalid request: " ++ stratum_error_debug e)) := by
  have hmsg : on_message handle msg = Except.error
      (PoolError.stratumProtocol ("Invalid request: " ++ stratum_error_debug e)) := by
    unfold on_message
    rw [hp]
  have hB4 : ∀ m i, msg.method = some m → msg.id = some i →
      m ≠ "mining.subscribe" → m ≠ "mining.authorize" → m ≠ "mining.submit" →
      m ≠ "mining.get_status" →
      parse_request msg = Except.error ⟨-32601, "Unknown method: " ++ m, none⟩ := by
    intro m i hm hi h1 h2 h3 h4
    simp only [parse_request, hm, hi]
  have hB5 : ∀ i, msg.method = some "mining.authorize" → msg.id = some i →
      msg.params.bind JVal.asArr = none →
      parse_request msg = Except.error ⟨-32602, "Invalid params", none⟩ := by
    intro i hm hi hpar
    simp only [parse_request, hm, hi, hpar]
  have hB6 : ∀ i params, msg.method = some "mining.authorize" → msg.id = some i →
      msg.params.bind JVal.asArr = some params →
      (params.get? 0).bind JVal.asStr = none →
      parse_request msg = Except.error ⟨-32602, "Missing worker name", none⟩ := by
    intro i params hm hi hpar hw
    simp only [parse_request, hm, hi, hpar, hw]
  have hB7 : ∀ i, msg.method = some "mining.submit" → msg.id = some i →
      msg.params = none →
      parse_request msg = Except.error ⟨-32602, "Invalid params", none⟩ := by
    intro i hm hi hpar
    simp only [parse_request, hm, hi, hpar]
  have hB8 : ∀ i params, msg.method = some "mining.submit" → msg.id = some i →
      msg.params = some params → share_submission_from_json params = none →
      parse_request msg = Except.error ⟨-32602, "Invalid submission format", none⟩ := by
    intro i params hm hi hpar hsub
    simp only [parse_request, hm, hi, hpar, hsub]
  have htri : (e.code = -32600 ∨ e.code = -32601 ∨ e.code = -32602) ∧
      (msg.method = none → e.code = -32600) ∧
      (msg.method ≠ none → msg.id = none → e.code = -32600) := by
    rcases msg with ⟨mid, mmethod, mparams, mres, merr⟩
    cases mmethod with
    | none =>
      simp only [parse_request] at hp
      injection hp with h
      subst h
      exact ⟨Or.inl rfl, fun _ => rfl, fun hne => absurd rfl hne⟩
    | some method =>
      cases mid with
      | none =>
        simp only [parse_request] at hp
        injection hp with h
        subst h
        exact ⟨Or.inl rfl, fun h2 => Option.noConfusion h2, fun _ _ => rfl⟩
      | some i =>
        simp only [parse_request] at hp
        split at hp <;>
          first
          | exact Except.noConfusion hp
          | (injection hp with h; subst h;
             exact ⟨by first | exact Or.inl rfl | exact Or.inr (Or.inl rfl) | exact Or.inr (Or.inr rfl),
                    fun h2 => Option.noConfusion h2,
                    fun _ h2 => Option.noConfusion h2⟩)
          | (split at hp <;>
              first
              | exact Except.noConfusion hp
              | (injection hp with h; subst h;
                 exact ⟨by first | exact Or.inl rfl | exact Or.inr (Or.inl rfl) | exact Or.inr (Or.inr rfl),
                        fun h2 => Option.noConfusion h2,
                        fun _ h2 => Option.noConfusion h2⟩)
              | (split at hp <;>
                  first
                  | exact Except.noConfusion hp
                  | (injection hp with h; subst h;
                     exact ⟨by first | exact Or.inl rfl | exact Or.inr (Or.inl rfl) | exact Or.inr (Or.inr rfl),
                            fun h2 => Option.noConfusion h2,
                            fun _ h2 => Option.noConfusion h2⟩)))
  exact ⟨htri.1, htri.2.1, htri.2.2, hB4, hB5, hB6, hB7, hB8, hmsg⟩

/-- C8 counterexample: the unknown-method request is classified -32601 by
parse_request, but on_message turns it into a StratumProtocol error and no
response frame carrying -32601 (or any frame at all) is sent back, against
the claim that the client receives the error response echoing id 7. -/
theorem c8_counterexample :
    parse_request c8_message = Except.error ⟨-32601, "Unknown method: mining.ping", none⟩ ∧
    on_message c8_handle c8_message =
      Except.error (PoolError.stratumProtocol "Invalid request: Unknown method: mining.ping") :=
  ⟨rfl, rfl⟩

/-- C8 witness: the amended theorem applied to the missing-method frame. -/
theorem c8_parse_errors_not_sent_witness :
    (((-32600 : ℤ) = -32600 ∨ (-32600 : ℤ) = -32601 ∨ (-32600 : ℤ) = -32602) ∧
    (c8_message2.method = none → (-32600 : ℤ) = -32600) ∧
    (c8_message2.method ≠ none → c8_message2.id = none → (-32600 : ℤ) = -32600) ∧
    (∀ m i, c8_message2.method = some m → c8_message2.id = some i →
      m ≠ "mining.subscribe" → m ≠ "mining.authorize" → m ≠ "mining.submit" →
      m ≠ "mining.get_status" →
      parse_request c8_message2 = Except.error ⟨-32601, "Unknown method: " ++ m, none⟩) ∧
    (∀ i, c8_message2.method = some "mining.authorize" → c8_message2.id = some i →
      c8_message2.params.bind JVal.asArr = none →
      parse_request c8_message2 = Except.error ⟨-32602, "Invalid params", none⟩) ∧
    (∀ i params, c8_message2.method = some "mining.authorize" → c8_message2.id = some i →
      c8_message2.params.bind JVal.asArr = some params →
      (params.get? 0).bind JVal.asStr = none →
      parse_request c8_message2 = Except.error ⟨-32602, "Missing worker name", none⟩) ∧
    (∀ i, c8_message2.method = some "mining.submit" → c8_message2.id = some i →
      c8_message2.params = none →
      parse_request c8_message2 = Except.error ⟨-32602, "Invalid params", none⟩) ∧
    (∀ i params, c8_message2.method = some "mining.submit" → c8_message2.id = some i →
      c8_message2.params = some params → share_submission_from_json params = none →
      parse_request c8_message2 = Except.error ⟨-32602, "Invalid submission format", none⟩) ∧
    on_message c8_handle c8_message2 = Except.error
      (PoolError.stratumProtocol
        ("Invalid request: " ++
          stratum_error_debug ⟨-32600, "Invalid request: missing method", none⟩))) :=
  c8_parse_errors_not_sent c8_handle c8_message2
    ⟨-32600, "Invalid request: missing method", none⟩ rfl

/-! ## C3: the payout calculation -/

/-- C3 counterexample: with fee 0.0 and block reward 2^53 + 3 going to a
single miner, the code pays 2^53 + 4 (the f64 rounding of the reward),
while floor on exact integer arithmetic gives 2^53 + 3. -/
theorem c3_floor_counterexample :
    calculate_payouts (mkF64 0 1 0) c3_state (2 ^ 53 + 3) 0 10 =
      Except.ok [⟨"m", 2 ^ 53 + 4, (0, 10), 1⟩] ∧
    (2 ^ 53 + 3) * 1 / 1 = 2 ^ 53 + 3 ∧ (2 ^ 53 + 4 : ℕ) ≠ 2 ^ 53 + 3 :=
  ⟨rfl, by norm_num, by norm_num⟩

/-- A failed propositional equality gives a false Boolean equality test. -/
theorem str_beq_false {a b : String} (h : ¬a = b) : (a == b) = false :=
  beq_eq_false_iff_ne.mpr h

/-- Pointwise effect of bumpMap on lookups. -/
theorem bumpMap_lookup (m : List (String × ℕ)) (k : String) (v : ℕ) (a : String) :
    (bumpMap m k v).lookup a =
      if a = k then some (((m.lookup k).getD 0 + v) % MOD64) else m.lookup a := by
  induction m with
  | nil =>
    by_cases hak : a = k
    · subst hak; simp [bumpMap, List.lookup]
    · simp [bumpMap, List.lookup, hak, str_beq_false hak]
  | cons p rest ih =>
    obtain ⟨k2, v2⟩ := p
    by_cases hk2 : k2 = k
    · subst hk2
      by_cases hak : a = k2
      · subst hak; simp [bumpMap, List.lookup]
      · simp [bumpMap, List.lookup, hak, str_beq_false hak]
    · by_cases hak : a = k2
      · subst hak
        have hk : ¬a = k := hk2
        simp [bumpMap, List.lookup, hk2, hk, str_beq_false hk]
      · have hbk : (k == k2) = false := str_beq_false (fun h => hk2 h.symm)
        simp [bumpMap, List.lookup, hk2, hak, str_beq_false hak, hbk, ih]

/-- The miner-units fold of calculate_payouts computes, per address, the
wrapping sum of that miner's reward units. -/
theorem bump_foldl_lookup (shares : List ShareRecord) :
    ∀ (m : List (String × ℕ)) (a : String),
      ((shares.foldl (fun m s => bumpMap m s.miner_address s.reward_units) m).lookup a) =
        (match m.lookup a with
         | some v => some (miner_wrap_units_from shares a v)
         | none =>
           if shares.any (fun s => s.miner_address == a) then
             some (miner_wrap_units_from shares a 0)
           else none) := by
  induction shares with
  | nil =>
    intro m a
    simp only [List.foldl_nil]
    cases hm : m.lookup a <;> simp [miner_wrap_units_from, hm]
  | cons s rest ih =>
    intro m a
    rw [List.foldl_cons, ih (bumpMap m s.miner_address s.reward_units) a, bumpMap_lookup]
    by_cases has : a = s.miner_address
    · rw [has]
      rw [if_pos rfl]
      cases hm : m.lookup s.miner_address <;>
        simp [miner_wrap_units_from, List.foldl_cons, List.any_cons, hm]
    · have has2 : ¬s.miner_address = a := fun h => has h.symm
      rw [if_neg has]
      cases hm : m.lookup a <;>
        simp [miner_wrap_units_from, List.foldl_cons, List.any_cons, hm, has2,
          str_beq_false has2]

/-- A lookup hit is a member. -/
theorem mem_of_lookup_eq_some (l : List (String × ℕ)) (a : String) (v : ℕ)
    (h : l.lookup a = some v) : (a, v) ∈ l := by
  induction l with
  | nil => simp [List.lookup] at h
  | cons p rest ih =>
    obtain ⟨k, w⟩ := p
    by_cases hak : a = k
    · subst hak
      simp [List.lookup] at h
      subst h
      exact List.mem_cons_self _ _
    · simp [List.lookup, hak, str_beq_false hak] at h
      exact List.mem_cons_of_mem _ (ih h)

/-- Under duplicate-free keys, a member is its own lookup result. -/
theorem lookup_eq_some_of_mem_nodup (l : List (String × ℕ)) (a : String) (v : ℕ)
    (hnd : (l.map Prod.fst).Nodup) (hm : (a, v) ∈ l) : l.lookup a = some v := by
  induction l with
  | nil => cases hm
  | cons p rest ih =>
    obtain ⟨k, w⟩ := p
    rcases List.mem_cons.mp hm with h1 | h2
    · injection h1 with h1a h1b
      subst h1a; subst h1b
      simp [List.lookup]
    · have hk : a ≠ k := by
        intro hak
        subst hak
        have hmem : a ∈ rest.map Prod.fst := List.mem_map.mpr ⟨(a, v), h2, rfl⟩
        exact (List.nodup_cons.mp hnd).1 hmem
      simp only [List.lookup, str_beq_false hk]
      exact ih (List.nodup_cons.mp hnd).2 h2

/-- The keys of bumpMap: unchanged when the key is present, appended
otherwise. -/
theorem bumpMap_keys (m : List (String × ℕ)) (k : String) (v : ℕ) :
    (bumpMap m k v).map Prod.fst =
      if k ∈ m.map Prod.fst then m.map Prod.fst else m.map Prod.fst ++ [k] := by
  induction m with
  | nil => simp [bumpMap]
  | cons p rest ih =>
    obtain ⟨k2, v2⟩ := p
    by_cases hk : k2 = k
    · subst hk; simp [bumpMap]
    · have hk2 : k ≠ k2 := Ne.symm hk
      simp only [bumpMap, if_neg hk, List.map_cons, List.mem_cons, ih]
      by_cases hmem : k ∈ rest.map Prod.fst
      · simp [hmem, hk2]
      · simp [hmem, hk2]

/-- bumpMap preserves duplicate-free keys. -/
theorem bumpMap_nodup (m : List (String × ℕ)) (k : String) (v : ℕ)
    (h : (m.map Prod.fst).Nodup) : ((bumpMap m k v).map Prod.fst).Nodup := by
  rw [bumpMap_keys]
  by_cases hm : k ∈ m.map Prod.fst
  · simp [hm, h]
  · simp only [if_neg hm]
    rw [List.nodup_append]
    refine ⟨h, List.nodup_singleton k, ?_⟩
    intro x hx hx2
    rw [List.mem_singleton.mp hx2] at hx
    exact hm hx

/-- The miner-units fold keeps keys duplicate-free. -/
theorem bump_foldl_nodup (shares : List ShareRecord) :
    ∀ m : List (String × ℕ), (m.map Prod.fst).Nodup →
      (((shares.foldl (fun m s => bumpMap m s.miner_address s.reward_units) m).map
        Prod.fst)).Nodup := by
  induction shares with
  | nil => intro m h; simpa using h
  | cons s rest ih =>
    intro m h
    rw [List.foldl_cons]
    exact ih _ (bumpMap_nodup _ _ _ h)

/-- The payout loop is the filterMap of its push condition. -/
theorem payout_push_foldl (d t : ℕ) (ws we : ℤ) (counts : List (String × ℕ)) :
    ∀ (l : List (String × ℕ)) (acc : List PendingPayout),
      l.foldl (payout_push d t ws we counts) acc =
        acc ++ l.filterMap (fun p =>
          if 0 < (((F64.ofNat d).mul (F64.ofNat p.2)).div (F64.ofNat t)).toU64 then
            some ⟨p.1, (((F64.ofNat d).mul (F64.ofNat p.2)).div (F64.ofNat t)).toU64,
                  (ws, we), (counts.lookup p.1).getD 0⟩
          else none) := by
  intro l
  induction l with
  | nil => intro acc; simp
  | cons p rest ih =>
    intro acc
    rw [List.foldl_cons]
    by_cases hp : 0 < (((F64.ofNat d).mul (F64.ofNat p.2)).div (F64.ofNat t)).toU64
    · rw [List.filterMap_cons]
      simp only [if_pos hp]
      rw [show payout_push d t ws we counts acc p =
            acc ++ [⟨p.1, (((F64.ofNat d).mul (F64.ofNat p.2)).div (F64.ofNat t)).toU64,
                    (ws, we), (counts.lookup p.1).getD 0⟩] from by
          unfold payout_push; rw [if_pos hp]]
      rw [ih]
      simp
    · rw [List.filterMap_cons]
      simp only [if_neg hp]
      rw [show payout_push d t ws we counts acc p = acc from by
          unfold payout_push; rw [if_neg hp]]
      exact ih acc

set_option maxHeartbeats 1600000 in
/-- C3 amended: when the window total of reward units is zero the result is
empty; otherwise every returned payout carries the positive amount obtained
by the f64 computation (truncated toward zero) on its miner's aggregated
units, miners whose f64 amount is zero are omitted, and every window miner
with a positive f64 amount appears.  The amounts are these f64 truncations,
not exact integer floors. -/
theorem c3_payout_characterization (fee : F64) (st : RedisState) (block_reward : ℕ)
    (ws we : ℤ) (shares : List ShareRecord) (out : List PendingPayout)
    (hshares : get_shares_in_window st ws we = Except.ok shares)
    (hout : calculate_payouts fee st block_reward ws we = Except.ok out) :
    (window_total_units shares = 0 → out = []) ∧
    (∀ p ∈ out,
      p.amount = payout_amount_f64 fee block_reward shares p.miner_address ∧
      0 < p.amount ∧ p.shares_window = (ws, we) ∧
      ∃ s ∈ shares, s.miner_address = p.miner_address) ∧
    (∀ a, (∃ s ∈ shares, s.miner_address = a) → window_total_units shares ≠ 0 →
      0 < payout_amount_f64 fee block_reward shares a →
      ∃ p ∈ out, p.miner_address = a ∧
        p.amount = payout_amount_f64 fee block_reward shares a) := by
  simp only [calculate_payouts, hshares] at hout
  by_cases htot : shares.foldl (fun acc s => (acc + s.reward_units) % MOD64) 0 = 0
  · rw [if_pos htot] at hout
    injection hout with h
    subst h
    refine ⟨fun _ => rfl, ?_, ?_⟩
    · intro p hp
      exact absurd hp (List.not_mem_nil p)
    · intro a hex hne hpos
      exact absurd htot hne
  · rw [if_neg htot] at hout
    injection hout with h
    subst h
    simp only [payout_push_foldl, List.nil_append]
    have hnd := bump_foldl_nodup shares [] (by simp)
    refine ⟨fun h0 => absurd h0 htot, ?_, ?_⟩
    · intro p hp
      rcases List.mem_filterMap.mp hp with ⟨q, hq, hfq⟩
      obtain ⟨a0, u0⟩ := q
      have hlk := lookup_eq_some_of_mem_nodup _ a0 u0 hnd hq
      rw [bump_foldl_lookup shares [] a0] at hlk
      simp only [List.lookup_nil] at hlk
      by_cases hany : shares.any (fun s => s.miner_address == a0) = true
      · rw [if_pos hany] at hlk
        injection hlk with h3
        by_cases hpos : 0 <
            (((F64.ofNat (wrapSub64 block_reward
                (((F64.ofNat block_reward).mul fee).div (F64.ofNat 100)).toU64)).mul
              (F64.ofNat u0)).div
              (F64.ofNat (shares.foldl (fun acc s => (acc + s.reward_units) % MOD64) 0))).toU64
        · rw [if_pos hpos] at hfq
          injection hfq with h4
          subst h4
          refine ⟨?_, hpos, rfl, ?_⟩
          · show (((F64.ofNat (wrapSub64 block_reward
                (((F64.ofNat block_reward).mul fee).div (F64.ofNat 100)).toU64)).mul
                (F64.ofNat u0)).div
                (F64.ofNat (shares.foldl (fun acc s => (acc + s.reward_units) % MOD64) 0))).toU64 =
              payout_amount_f64 fee block_reward shares a0
            rw [← h3]
            rfl
          · rcases List.any_eq_true.mp hany with ⟨s, hs, hbeq⟩
            exact ⟨s, hs, eq_of_beq hbeq⟩
        · rw [if_neg hpos] at hfq
          exact Option.noConfusion hfq
      · rw [if_neg hany] at hlk
        exact Option.noConfusion hlk
    · intro a hex hne hpos
      have hany : shares.any (fun s => s.miner_address == a) = true := by
        rcases hex with ⟨s, hs, hsa⟩
        exact List.any_eq_true.mpr ⟨s, hs, by simp [hsa]⟩
      have hchar := bump_foldl_lookup shares [] a
      simp only [List.lookup_nil] at hchar
      rw [if_pos hany] at hchar
      have hmem := mem_of_lookup_eq_some _ _ _ hchar
      have hpos2 : 0 <
          (((F64.ofNat (wrapSub64 block_reward
              (((F64.ofNat block_reward).mul fee).div (F64.ofNat 100)).toU64)).mul
            (F64.ofNat (miner_wrap_units_from shares a 0))).div
            (F64.ofNat (shares.foldl (fun acc s => (acc + s.reward_units) % MOD64) 0))).toU64 :=
        hpos
      refine ⟨⟨a, payout_amount_f64 fee block_reward shares a, (ws, we),
        (((shares.foldl (fun m s => bumpMap m s.miner_address 1) []).lookup a).getD 0)⟩,
        ?_, rfl, rfl⟩
      refine List.mem_filterMap.mpr ⟨(a, miner_wrap_units_from shares a 0), hmem, ?_⟩
      show (if 0 <
          (((F64.ofNat (wrapSub64 block_reward
              (((F64.ofNat block_reward).mul fee).div (F64.ofNat 100)).toU64)).mul
            (F64.ofNat (miner_wrap_units_from shares a 0))).div
            (F64.ofNat (shares.foldl (fun acc s => (acc + s.reward_units) % MOD64) 0))).toU64 then
          some (⟨a,
            (((F64.ofNat (wrapSub64 block_reward
                (((F64.ofNat block_reward).mul fee).div (F64.ofNat 100)).toU64)).mul
              (F64.ofNat (miner_wrap_units_from shares a 0))).div
              (F64.ofNat (shares.foldl (fun acc s => (acc + s.reward_units) % MOD64) 0))).toU64,
            (ws, we),
            (((shares.foldl (fun m s => bumpMap m s.miner_address 1) []).lookup a).getD 0)⟩ :
            PendingPayout)
        else none) =
        some ⟨a, payout_amount_f64 fee block_reward shares a, (ws, we),
          (((shares.foldl (fun m s => bumpMap m s.miner_address 1) []).lookup a).getD 0)⟩
      rw [if_pos hpos2]
      rfl

/-- C3 witness: the characterization applied to a one-share window with a
2 percent fee, where the f64 amount is exact: 980000. -/
theorem c3_payout_characterization_witness :
    (window_total_units [c3_share] = 0 → ([⟨"m", 980000, (0, 10), 1⟩] : List PendingPayout) = []) ∧
    (∀ p ∈ ([⟨"m", 980000, (0, 10), 1⟩] : List PendingPayout),
      p.amount = payout_amount_f64 (mkF64 2 1 0) 1000000 [c3_share] p.miner_address ∧
      0 < p.amount ∧ p.shares_window = ((0 : ℤ), (10 : ℤ)) ∧
      ∃ s ∈ [c3_share], s.miner_address = p.miner_address) ∧
    (∀ a, (∃ s ∈ [c3_share], s.miner_address = a) → window_total_units [c3_share] ≠ 0 →
      0 < payout_amount_f64 (mkF64 2 1 0) 1000000 [c3_share] a →
      ∃ p ∈ ([⟨"m", 980000, (0, 10), 1⟩] : List PendingPayout), p.miner_address = a ∧
        p.amount = payout_amount_f64 (mkF64 2 1 0) 1000000 [c3_share] a) :=
  c3_payout_characterization (mkF64 2 1 0) c3_state 1000000 0 10 [c3_share]
    [⟨"m", 980000, (0, 10), 1⟩] rfl rfl
